import Mathlib

/-!
Verification of the drcachesim tracer client
(src/clients/drcachesim/tracer/instrument.cpp).

The development shallowly embeds the tracer's per-thread buffer management,
the memtrace flush/drain protocol, the per-instruction injection planner
(event_app_instruction / instrument_mem) and the thread-lifecycle bookkeeping
(event_thread_init / event_thread_exit), and proves the stated properties of
the flush policy, the wire protocol framing, the planner's entry sequence,
the clean-call placement, and the reference counters.
-/

namespace DrCacheSim

/-- Trace record type tags. The enum lives in ../common/trace_entry.h, which is
not part of this repository. Modelled from the spec: the type is one of THREAD
(addr holds a thread id), PID (addr holds a process id), INSTR_FETCH (defined
but disabled by policy), READ and WRITE (memory accesses). -/
inductive TraceType where
  | THREAD
  | PID
  | INSTR_FETCH
  | READ
  | WRITE
deriving DecidableEq, Repr

/-- One fixed-layout wire record. trace_entry.h is not part of this repository.
Modelled from the spec: a fixed-size record with a type tag, a 16-bit size and
a 64-bit addr value. Machine widths are enforced at the writes that truncate
(the ushort cast in instrument_mem), not by the field types. -/
structure TraceEntry where
  type : TraceType
  size : Nat
  addr : Nat
deriving DecidableEq, Repr

/-- Max number of mem_ref entries a buffer can hold (instrument.cpp line 77). -/
def MAX_NUM_MEM_REFS : Nat := 4096

/-- The single reserved header slot at the start of every buffer (line 115). -/
def BUF_HDR_SLOTS : Nat := 1

/-- Byte width of one trace_entry_t record. The struct lives in trace_entry.h,
which is not part of this repository. Modelled from the spec: 2-byte type,
2-byte size, 8-byte addr. Only its positivity matters to the theorems. -/
def TRACE_ENTRY_SIZE : Nat := 12

/-- Modulus of the uint64 reference counters (num_refs fields). -/
def UINT64_LIMIT : Nat := 2 ^ 64

/-- Modulus of a ushort, used by the casts in instrument_mem. -/
def USHORT_LIMIT : Nat := 2 ^ 16

/-- Modelled from the spec: sizeof(thread_id_t) of the host headers (not in
this repository); stored in the size field of a THREAD entry. -/
def THREAD_ID_SIZE : Nat := 4

/-- Modelled from the spec: sizeof(process_id_t) of the host headers (not in
this repository); stored in the size field of a PID entry. -/
def PROCESS_ID_SIZE : Nat := 4

/-- The per_thread_t record together with the TLS buffer pointer it owns:
slot0 is the reserved header slot (buf_base[0]), userEntries are the entries
occupying slots [BUF_HDR_SLOTS, cursor), so the cursor BUF_PTR - buf_base
equals BUF_HDR_SLOTS + userEntries.length. -/
structure PerThread where
  slot0 : TraceEntry
  userEntries : List TraceEntry
  num_refs : Nat
  thread_registered : Bool
deriving DecidableEq, Repr

/-- A message: the byte range handed to one ipc_pipe.write call, as a list of
trace entries. -/
abbrev Msg := List TraceEntry

/-- The THREAD header entry memtrace writes into the reserved first slot:
type TRACE_TYPE_THREAD, size sizeof(thread_id_t), addr the thread id. -/
def threadHeader (tid : Nat) : TraceEntry :=
  { type := TraceType.THREAD, size := THREAD_ID_SIZE, addr := tid }

/-- The PID entry of the once-per-thread registration message:
type TRACE_TYPE_PID, size sizeof(process_id_t), addr the process id. -/
def pidEntry (pid : Nat) : TraceEntry :=
  { type := TraceType.PID, size := PROCESS_ID_SIZE, addr := pid }

/-- The counting loop of memtrace: one uint64 increment of data->num_refs per
occupied buffer slot from buf_base up to buf_ptr. -/
def bumpRefs : Nat → Nat → Nat
  | n, 0 => n
  | n, k + 1 => bumpRefs ((n + 1) % UINT64_LIMIT) k

/-- memtrace (instrument.cpp lines 119-171), happy path (both pipe writes
transfer their full byte count; memtraceW below models the write results).
Returns the new per-thread state and the list of messages written to the
pipe, in order. If delay is set and the buffer is filled to less than half
its capacity the call does nothing. Otherwise it writes the THREAD header
into the reserved first slot, sends the once-per-thread registration message
{THREAD, PID} if the thread is not yet registered (marking it registered),
counts every occupied slot from buf_base into num_refs, sends the occupied
range
[buf_base, buf_ptr) as one message, and resets the cursor to just past the
header slot. -/
def memtrace (tid pid : Nat) (delay : Bool) (st : PerThread) :
    PerThread × List Msg :=
  if delay = true ∧ BUF_HDR_SLOTS + st.userEntries.length < MAX_NUM_MEM_REFS / 2 then
    (st, [])
  else
    let header := threadHeader tid
    let regMsgs : List Msg :=
      if st.thread_registered then [] else [[header, pidEntry pid]]
    let payload : Msg := header :: st.userEntries
    ({ slot0 := header
       userEntries := []
       num_refs := bumpRefs st.num_refs (BUF_HDR_SLOTS + st.userEntries.length)
       thread_registered := true },
     regMsgs ++ [payload])

/-- Result of one ipc_pipe.write call, as the code checks it: the write
returns a byte count (ssize_t, may be negative on failure) and the caller
requires the full requested byte count, executing DR_ASSERT(false) — modelled
as Except.error — on anything less. -/
def pipeSend (w : Msg → Int) (msg : Msg) : Except Unit Unit :=
  if w msg < ((msg.length * TRACE_ENTRY_SIZE : Nat) : Int) then Except.error ()
  else Except.ok ()

/-- The write-result oracle of a pipe on which every write transfers the full
requested byte count. -/
def writeFully (msg : Msg) : Int := ((msg.length * TRACE_ENTRY_SIZE : Nat) : Int)

/-- memtrace with the pipe's write results made explicit: w gives the byte
count each ipc_pipe.write call returns. A short or failed write aborts
(DR_ASSERT(false)), modelled as Except.error. The writes happen in source
order: the registration message (first flush only), then the main payload. -/
def memtraceW (w : Msg → Int) (tid pid : Nat) (delay : Bool) (st : PerThread) :
    Except Unit (PerThread × List Msg) :=
  if delay = true ∧ BUF_HDR_SLOTS + st.userEntries.length < MAX_NUM_MEM_REFS / 2 then
    Except.ok (st, [])
  else
    let header := threadHeader tid
    let regMsgs : List Msg :=
      if st.thread_registered then [] else [[header, pidEntry pid]]
    let payload : Msg := header :: st.userEntries
    match (if st.thread_registered then Except.ok ()
           else pipeSend w [header, pidEntry pid]) with
    | Except.error e => Except.error e
    | Except.ok _ =>
      match pipeSend w payload with
      | Except.error e => Except.error e
      | Except.ok _ =>
        Except.ok
          ({ slot0 := header
             userEntries := []
             num_refs := bumpRefs st.num_refs (BUF_HDR_SLOTS + st.userEntries.length)
             thread_registered := true },
           regMsgs ++ [payload])

/-- event_thread_init (lines 412-432): fresh buffer, cursor just past the
header slot, not registered, zero refs. The initial contents of the reserved
header slot are whatever the raw allocation holds, passed in as slot0. -/
def initThread (slot0 : TraceEntry) : PerThread :=
  { slot0 := slot0, userEntries := [], num_refs := 0, thread_registered := false }

/-- event_thread_exit (lines 434-444): a mandatory non-deferrable flush, then
the thread's final counter is folded into the global uint64 aggregate under
the mutex. Returns the new global aggregate and the messages the final flush
wrote. -/
def event_thread_exit (tid pid : Nat) (st : PerThread) (globalRefs : Nat) :
    Nat × List Msg :=
  let r := memtrace tid pid false st
  ((globalRefs + r.1.num_refs) % UINT64_LIMIT, r.2)

/-- Target architecture, selecting the IF_X86_ELSE / IF_ARM branches of
event_app_instruction. -/
inductive Arch where
  | x86
  | arm
deriving DecidableEq, Repr

/-- One instruction operand as the planner observes it through the host API:
whether opnd_is_memory_reference holds, the byte width
drutil_opnd_mem_size_in_bytes reports, and the effective address
drutil_insert_get_mem_addr computes at run time. -/
structure Operand where
  isMemRef : Bool
  memSize : Nat
  effAddr : Nat
deriving DecidableEq, Repr

/-- One instruction as the planner observes it through the host API:
instr_is_app, the declared source and destination operand lists, and the two
ARM-only predicates consulted by the clean-call condition. -/
structure Instr where
  isApp : Bool
  srcs : List Operand
  dsts : List Operand
  isPredicated : Bool
  isExclusiveStore : Bool
deriving DecidableEq, Repr, Inhabited

/-- instr_reads_memory of the host API: some source operand is a memory
reference. -/
def instrReadsMemory (i : Instr) : Bool := i.srcs.any (fun o => o.isMemRef)

/-- instr_writes_memory of the host API: some destination operand is a memory
reference. -/
def instrWritesMemory (i : Instr) : Bool := i.dsts.any (fun o => o.isMemRef)

/-- instrument_mem (lines 286-295): the single trace entry whose inline write
is planned for one memory operand — type TRACE_TYPE_WRITE or TRACE_TYPE_READ,
size the operand's byte width cast to ushort, addr the computed effective
address. -/
def instrument_mem (ref : Operand) (write : Bool) : TraceEntry :=
  { type := if write then TraceType.WRITE else TraceType.READ
    size := ref.memSize % USHORT_LIMIT
    addr := ref.effAddr }

/-- One operand loop of event_app_instruction (lines 337-343 for sources with
write = false, lines 345-351 for destinations with write = true): each memory
reference operand, in declared order, contributes one planned entry write at
the current byte offset adjust from the loaded buffer pointer, and advances
adjust by sizeof(trace_entry_t). Returns the planned (offset, entry) writes
and the final adjust. -/
def memLoop (write : Bool) : List Operand → Nat → List (Nat × TraceEntry) × Nat
  | [], adjust => ([], adjust)
  | r :: rest, adjust =>
    if r.isMemRef then
      let t := memLoop write rest (adjust + TRACE_ENTRY_SIZE)
      ((adjust, instrument_mem r write) :: t.1, t.2)
    else
      memLoop write rest adjust

/-- The instrumentation event_app_instruction attaches to one qualifying
instruction: the planned buffer writes with their byte offsets, the total
pointer advance handed to insert_update_buf_ptr, and whether a clean call is
inserted here. -/
structure Plan where
  writes : List (Nat × TraceEntry)
  adjust : Nat
  cleanCall : Bool
deriving DecidableEq, Repr

/-- The architecture-dependent guard of the clean-call insertion (lines
360-370): always true on x86; on ARM the instruction must not be predicated
and must not be an exclusive store. -/
def cleanCallPermitted : Arch → Instr → Bool
  | Arch.x86, _ => true
  | Arch.arm, i => (!i.isPredicated) && (!i.isExclusiveStore)

/-- event_app_instruction (lines 300-376): given one instruction and the
block's clean_call_inserted flag, returns the optional instrumentation plan
and the updated flag. Non-app instructions and instructions that neither read
nor write memory get no instrumentation. Otherwise the source-operand loop
runs with adjust starting at 0 (the instruction-fetch entry is compiled out
by the if (false) at line 331), then the destination-operand loop continues
from its final adjust, and a clean call is inserted iff none was inserted yet
in this block and the architecture guard permits it. -/
def event_app_instruction (arch : Arch) (ins : Instr) (cleanCallInserted : Bool) :
    Option Plan × Bool :=
  if !ins.isApp then
    (none, cleanCallInserted)
  else if !instrReadsMemory ins && !instrWritesMemory ins then
    (none, cleanCallInserted)
  else
    let s := memLoop false ins.srcs 0
    let d := memLoop true ins.dsts s.2
    let doCall := (!cleanCallInserted) && cleanCallPermitted arch ins
    (some { writes := s.1 ++ d.1, adjust := d.2, cleanCall := doCall },
     cleanCallInserted || doCall)

/-- The trace entries a plan writes, in offset order. -/
def planWrites : Option Plan → List TraceEntry
  | none => []
  | some p => p.writes.map Prod.snd

/-- The trace entries an instruction's instrumentation appends to the buffer,
in order (the planner's writes land at consecutive offsets 0, sizeof,
2*sizeof, ... from the loaded buffer pointer, and the arch and flag arguments
do not affect the writes). -/
def plannedEntries (ins : Instr) : List TraceEntry :=
  planWrites (event_app_instruction Arch.x86 ins false).1

/-- Follows the spec's words (§4.1 step 4): for every memory source operand,
in declared source order, a READ entry with size the operand's byte width and
addr its effective address; then for every memory destination operand, in
declared destination order, a WRITE entry analogously; nothing for non-app
instructions or instructions that neither read nor write memory. -/
def specPlannedEntries (ins : Instr) : List TraceEntry :=
  if ins.isApp = true ∧ (instrReadsMemory ins = true ∨ instrWritesMemory ins = true) then
    (ins.srcs.filter (fun o => o.isMemRef)).map
      (fun o => { type := TraceType.READ, size := o.memSize, addr := o.effAddr }) ++
    (ins.dsts.filter (fun o => o.isMemRef)).map
      (fun o => { type := TraceType.WRITE, size := o.memSize, addr := o.effAddr })
  else
    []

/-- Whether event_app_instruction instruments this instruction at all:
an app instruction that reads or writes memory. -/
def qualifies (ins : Instr) : Bool :=
  ins.isApp && (instrReadsMemory ins || instrWritesMemory ins)

/-- Processing the instructions of one basic block in order, threading the
clean_call_inserted flag, and collecting each instruction's optional plan. -/
def processBB (arch : Arch) : List Instr → Bool → List (Option Plan)
  | [], _ => []
  | ins :: rest, flag =>
    let r := event_app_instruction arch ins flag
    r.1 :: processBB arch rest r.2

/-- Instrumenting one basic block: event_bb_app2app (lines 381-393) allocates
the per-block user data with clean_call_inserted = false, then
event_app_instruction runs on each instruction in order. -/
def instrumentBB (arch : Arch) (instrs : List Instr) : List (Option Plan) :=
  processBB arch instrs false

/-- Whether a plan slot carries the block's clean call. -/
def hasCall : Option Plan → Bool
  | some p => p.cleanCall
  | none => false

/-- One runtime event of an observed thread: executing one instrumented
instruction (its inline instrumentation appends the planned entries and
advances the cursor in one batched update), or reaching the block's clean
call (which runs memtrace with delay). -/
inductive ThreadOp where
  | exec (ins : Instr)
  | flushCheck
deriving Repr

/-- One runtime step: the per-thread state transition and the messages it
writes to the pipe. -/
def threadStep (tid pid : Nat) (st : PerThread) : ThreadOp → PerThread × List Msg
  | ThreadOp.exec ins =>
    ({ st with userEntries := st.userEntries ++ plannedEntries ins }, [])
  | ThreadOp.flushCheck => memtrace tid pid true st

/-- Running a sequence of thread events, accumulating the messages written. -/
def threadRun (tid pid : Nat) (st : PerThread) : List ThreadOp → PerThread × List Msg
  | [] => (st, [])
  | op :: rest =>
    let r := threadStep tid pid st op
    let r2 := threadRun tid pid r.1 rest
    (r2.1, r.2 ++ r2.2)

/-- All messages a thread writes to the pipe during its lifetime: those of its
run, followed by those of the mandatory non-deferrable flush at thread exit. -/
def threadMessages (tid pid : Nat) (slot0 : TraceEntry) (ops : List ThreadOp) :
    List Msg :=
  let r := threadRun tid pid (initThread slot0) ops
  r.2 ++ (memtrace tid pid false r.1).2

/-- The buffer cursor in slots: BUF_PTR - buf_base. -/
def cursorOf (st : PerThread) : Nat := BUF_HDR_SLOTS + st.userEntries.length

/-- The largest value the buffer cursor takes at any point while running a
sequence of thread events from a given state. -/
def maxCursor (tid pid : Nat) (st : PerThread) : List ThreadOp → Nat
  | [] => cursorOf st
  | op :: rest => max (cursorOf st) (maxCursor tid pid (threadStep tid pid st op).1 rest)

/-- The side condition of the bounds argument: every run of consecutive
instruction executions between two flush checks (including before the first
and after the last check) appends at most bound entries in total; acc is the
count already appended in the current run. -/
def gapsBounded (bound : Nat) : List ThreadOp → Nat → Bool
  | [], acc => decide (acc ≤ bound)
  | ThreadOp.flushCheck :: rest, acc => decide (acc ≤ bound) && gapsBounded bound rest 0
  | ThreadOp.exec ins :: rest, acc =>
    gapsBounded bound rest (acc + (plannedEntries ins).length)

/-- Process shutdown bookkeeping: the global uint64 aggregate num_refs (zero
at process start) after every thread, given as (thread id, final per-thread
state), has run event_thread_exit. -/
def totalRefsAfterExits (pid : Nat) (threads : List (Nat × PerThread)) : Nat :=
  threads.foldl (fun g t => (event_thread_exit t.1 pid t.2 g).1) 0

/-- The final per-thread counter a thread folds into the global aggregate at
exit: its num_refs after the mandatory final flush. -/
def finalRefs (pid : Nat) (t : Nat × PerThread) : Nat :=
  ((memtrace t.1 pid false t.2).1).num_refs

/-- Whether a trace entry is a PID entry. -/
def isPidEntry (e : TraceEntry) : Bool := decide (e.type = TraceType.PID)

/-- The invariant the flush protocol maintains on a thread's state together
with the messages it has written so far: the buffered user entries are never
PID entries, nothing has been written before the thread is registered, and
once it is registered the first two records on the pipe are the THREAD and
PID registration records and no further PID record ever appears. -/
def RegInv (tid pid : Nat) (st : PerThread) (ms : List Msg) : Prop :=
  (∀ e ∈ st.userEntries, e.type ≠ TraceType.PID) ∧
  (st.thread_registered = false → ms = []) ∧
  (st.thread_registered = true →
    ms.flatten.take 2 = [threadHeader tid, pidEntry pid] ∧
    ms.flatten.countP isPidEntry = 1)

lemma bumpRefs_eq : ∀ (k n : Nat), n < UINT64_LIMIT →
    bumpRefs n k = (n + k) % UINT64_LIMIT
  | 0, n, h => by simp [bumpRefs, Nat.mod_eq_of_lt h]
  | k + 1, n, h => by
    have hpos : 0 < UINT64_LIMIT := lt_of_le_of_lt (Nat.zero_le n) h
    rw [bumpRefs, bumpRefs_eq k _ (Nat.mod_lt _ hpos), Nat.mod_add_mod]
    have harg : n + 1 + k = n + (k + 1) := by omega
    rw [harg]

/-- Claim C3: a deferrable flush on a buffer filled to less than half its
capacity does nothing — no pipe write happens and the buffer contents, write
cursor, registered flag and per-thread counter are all unchanged. -/
theorem deferred_flush_noop (tid pid : Nat) (st : PerThread)
    (h : BUF_HDR_SLOTS + st.userEntries.length < MAX_NUM_MEM_REFS / 2) :
    memtrace tid pid true st = (st, []) := by
  simp [memtrace, h]

theorem deferred_flush_noop_witness :
    BUF_HDR_SLOTS + (initThread (threadHeader 0)).userEntries.length <
      MAX_NUM_MEM_REFS / 2 ∧
    memtrace 5 7 true (initThread (threadHeader 0)) = (initThread (threadHeader 0), []) :=
  ⟨by decide, deferred_flush_noop 5 7 (initThread (threadHeader 0)) (by decide)⟩

/-- Claim C6: a flush that is not deferred writes the THREAD header carrying
the current thread id into the buffer's reserved first slot, sends the full
occupied range of the buffer — header slot through the current cursor — as
one pipe write (the last message of the call), and resets the cursor to just
past the reserved header slot, leaving the buffer empty of user entries. -/
theorem performed_flush_sends_and_resets (tid pid : Nat) (delay : Bool) (st : PerThread)
    (h : ¬(delay = true ∧ BUF_HDR_SLOTS + st.userEntries.length < MAX_NUM_MEM_REFS / 2)) :
    (memtrace tid pid delay st).1.slot0 = threadHeader tid ∧
    (memtrace tid pid delay st).2.getLast? = some (threadHeader tid :: st.userEntries) ∧
    (memtrace tid pid delay st).1.userEntries = [] := by
  rw [memtrace, if_neg h]
  refine ⟨rfl, ?_, rfl⟩
  cases hreg : st.thread_registered <;> simp [hreg]

theorem performed_flush_sends_and_resets_witness :
    (¬(false = true ∧ BUF_HDR_SLOTS + (initThread (threadHeader 0)).userEntries.length <
        MAX_NUM_MEM_REFS / 2)) ∧
    ((memtrace 5 7 false (initThread (threadHeader 0))).1.slot0 = threadHeader 5 ∧
     (memtrace 5 7 false (initThread (threadHeader 0))).2.getLast? =
        some (threadHeader 5 :: (initThread (threadHeader 0)).userEntries) ∧
     (memtrace 5 7 false (initThread (threadHeader 0))).1.userEntries = []) :=
  ⟨by decide,
   performed_flush_sends_and_resets 5 7 false (initThread (threadHeader 0)) (by decide)⟩

/-- Claim C9: a flush that is not deferred advances the per-thread uint64
counter by the number of occupied buffer slots counted from the buffer base —
the recorded user entries plus the reserved THREAD header slot — and the
message it sends has exactly that many records, so the counter exceeds the
number of READ/WRITE entries recorded by exactly one per performed flush. -/
theorem performed_flush_counts_header_slot (tid pid : Nat) (delay : Bool) (st : PerThread)
    (h : ¬(delay = true ∧ BUF_HDR_SLOTS + st.userEntries.length < MAX_NUM_MEM_REFS / 2))
    (hlt : st.num_refs < UINT64_LIMIT) :
    (memtrace tid pid delay st).1.num_refs =
      (st.num_refs + (st.userEntries.length + BUF_HDR_SLOTS)) % UINT64_LIMIT ∧
    ((memtrace tid pid delay st).2.getLast?).map List.length =
      some (st.userEntries.length + BUF_HDR_SLOTS) := by
  rw [memtrace, if_neg h]
  constructor
  · show bumpRefs st.num_refs (BUF_HDR_SLOTS + st.userEntries.length) = _
    rw [bumpRefs_eq _ _ hlt, Nat.add_comm BUF_HDR_SLOTS]
  · cases hreg : st.thread_registered <;> simp [hreg, BUF_HDR_SLOTS]

theorem performed_flush_counts_header_slot_witness :
    (¬(false = true ∧ BUF_HDR_SLOTS + (initThread (threadHeader 0)).userEntries.length <
        MAX_NUM_MEM_REFS / 2)) ∧
    (initThread (threadHeader 0)).num_refs < UINT64_LIMIT ∧
    ((memtrace 5 7 false (initThread (threadHeader 0))).1.num_refs =
      ((initThread (threadHeader 0)).num_refs +
        ((initThread (threadHeader 0)).userEntries.length + BUF_HDR_SLOTS)) % UINT64_LIMIT ∧
     ((memtrace 5 7 false (initThread (threadHeader 0))).2.getLast?).map List.length =
      some ((initThread (threadHeader 0)).userEntries.length + BUF_HDR_SLOTS)) :=
  ⟨by decide, by decide,
   performed_flush_counts_header_slot 5 7 false (initThread (threadHeader 0))
     (by decide) (by decide)⟩

/-- Claim C4: the flush performed at thread exit is non-deferrable — a pipe
write occurs unconditionally regardless of buffer occupancy (even on an empty
buffer), the sent message drains every buffered entry and the buffer is left
empty, and the thread's final per-thread counter is then folded into the
global uint64 aggregate. -/
theorem thread_exit_flush_unconditional (tid pid g : Nat) (st : PerThread) :
    (event_thread_exit tid pid st g).2 ≠ [] ∧
    (event_thread_exit tid pid st g).2.getLast? =
      some (threadHeader tid :: st.userEntries) ∧
    (memtrace tid pid false st).1.userEntries = [] ∧
    (event_thread_exit tid pid st g).1 =
      (g + (memtrace tid pid false st).1.num_refs) % UINT64_LIMIT := by
  have h : ¬(false = true ∧ BUF_HDR_SLOTS + st.userEntries.length < MAX_NUM_MEM_REFS / 2) := by
    simp
  refine ⟨?_, ?_, ?_, rfl⟩
  · show (memtrace tid pid false st).2 ≠ []
    rw [memtrace, if_neg h]
    cases hreg : st.thread_registered <;> simp [hreg]
  · show (memtrace tid pid false st).2.getLast? = _
    rw [memtrace, if_neg h]
    cases hreg : st.thread_registered <;> simp [hreg]
  · rw [memtrace, if_neg h]

lemma memtraceW_writeFully (tid pid : Nat) (d : Bool) (st : PerThread) :
    memtraceW writeFully tid pid d st = Except.ok (memtrace tid pid d st) := by
  by_cases hc : d = true ∧ BUF_HDR_SLOTS + st.userEntries.length < MAX_NUM_MEM_REFS / 2
  · rw [memtraceW, if_pos hc, memtrace, if_pos hc]
  · rw [memtraceW, if_neg hc, memtrace, if_neg hc]
    cases hreg : st.thread_registered <;> simp [hreg, pipeSend, writeFully]

/-- Claim C7: for every pipe write memtrace issues — the one-time registration
message and the main buffer payload — a result short of the full requested
byte count (including outright failure) makes the call abort: a successful
memtraceW call certifies that every write it issued transferred at least its
full requested byte count. -/
theorem short_pipe_write_fatal (w : Msg → Int) (tid pid : Nat) (delay : Bool)
    (st : PerThread)
    (hperf : ¬(delay = true ∧ BUF_HDR_SLOTS + st.userEntries.length < MAX_NUM_MEM_REFS / 2))
    (hok : ∃ out, memtraceW w tid pid delay st = Except.ok out) :
    (st.thread_registered = false →
      ((2 * TRACE_ENTRY_SIZE : Nat) : Int) ≤ w [threadHeader tid, pidEntry pid]) ∧
    (((st.userEntries.length + 1) * TRACE_ENTRY_SIZE : Nat) : Int) ≤
      w (threadHeader tid :: st.userEntries) := by
  obtain ⟨out, hout⟩ := hok
  rw [memtraceW, if_neg hperf] at hout
  cases hreg : st.thread_registered
  · rw [hreg] at hout
    simp only [Bool.false_eq_true, if_neg] at hout
    by_cases h1 : w [threadHeader tid, pidEntry pid] <
        (([threadHeader tid, pidEntry pid].length * TRACE_ENTRY_SIZE : Nat) : Int)
    · rw [pipeSend, if_pos h1] at hout
      exact absurd hout (by simp)
    · by_cases h2 : w (threadHeader tid :: st.userEntries) <
          (((threadHeader tid :: st.userEntries).length * TRACE_ENTRY_SIZE : Nat) : Int)
      · rw [pipeSend, if_neg h1, pipeSend, if_pos h2] at hout
        exact absurd hout (by simp)
      · constructor
        · intro _
          simpa using not_lt.mp h1
        · simpa [Nat.add_comm] using not_lt.mp h2
  · rw [hreg] at hout
    simp only [if_pos] at hout
    by_cases h2 : w (threadHeader tid :: st.userEntries) <
        (((threadHeader tid :: st.userEntries).length * TRACE_ENTRY_SIZE : Nat) : Int)
    · rw [pipeSend, if_pos h2] at hout
      exact absurd hout (by simp)
    · constructor
      · intro hfalse
        simp [hreg] at hfalse
      · simpa [Nat.add_comm] using not_lt.mp h2

theorem short_pipe_write_fatal_witness :
    (¬(false = true ∧ BUF_HDR_SLOTS + (initThread (threadHeader 0)).userEntries.length <
        MAX_NUM_MEM_REFS / 2)) ∧
    (∃ out, memtraceW writeFully 5 7 false (initThread (threadHeader 0)) = Except.ok out) ∧
    (((initThread (threadHeader 0)).thread_registered = false →
        ((2 * TRACE_ENTRY_SIZE : Nat) : Int) ≤ writeFully [threadHeader 5, pidEntry 7]) ∧
     ((((initThread (threadHeader 0)).userEntries.length + 1) * TRACE_ENTRY_SIZE : Nat) : Int) ≤
        writeFully (threadHeader 5 :: (initThread (threadHeader 0)).userEntries)) :=
  ⟨by decide, ⟨memtrace 5 7 false (initThread (threadHeader 0)), memtraceW_writeFully 5 7 false _⟩,
   short_pipe_write_fatal writeFully 5 7 false (initThread (threadHeader 0)) (by decide)
     ⟨memtrace 5 7 false (initThread (threadHeader 0)), memtraceW_writeFully 5 7 false _⟩⟩

lemma memLoop_map_snd (w : Bool) : ∀ (ops : List Operand) (a : Nat),
    ((memLoop w ops a).1).map Prod.snd =
      (ops.filter (fun o => o.isMemRef)).map (fun o => instrument_mem o w)
  | [], _ => rfl
  | r :: rest, a => by
    cases h : r.isMemRef <;>
      simp [memLoop, h, memLoop_map_snd w rest]

/-- Claim C2: for every instruction, with any architecture and any state of
the block's clean-call flag, the entries the planner emits are exactly one
READ entry per memory source operand in declared source order, followed by
one WRITE entry per memory destination operand in declared destination order,
each with size the operand's byte width (all real operand widths fit a
ushort) and addr the operand's computed effective address; non-app
instructions and instructions that neither read nor write memory produce no
entries. -/
theorem planner_entries_match_spec (arch : Arch) (flag : Bool) (ins : Instr)
    (hsrc : ∀ o ∈ ins.srcs, o.memSize < USHORT_LIMIT)
    (hdst : ∀ o ∈ ins.dsts, o.memSize < USHORT_LIMIT) :
    planWrites (event_app_instruction arch ins flag).1 = specPlannedEntries ins := by
  by_cases happ : ins.isApp = true
  · by_cases hmem : instrReadsMemory ins = true ∨ instrWritesMemory ins = true
    · have hcond : (!instrReadsMemory ins && !instrWritesMemory ins) = false := by
        rcases hmem with hm | hm <;> simp [hm]
      rw [event_app_instruction, if_neg (by simp [happ]), if_neg (by simp [hcond])]
      rw [specPlannedEntries, if_pos ⟨happ, hmem⟩]
      show ((memLoop false ins.srcs 0).1 ++
          (memLoop true ins.dsts (memLoop false ins.srcs 0).2).1).map Prod.snd = _
      rw [List.map_append, memLoop_map_snd, memLoop_map_snd]
      have hhalf : ∀ (w : Bool) (ops : List Operand),
          (∀ o ∈ ops, o.memSize < USHORT_LIMIT) →
          (ops.filter (fun o => o.isMemRef)).map (fun o => instrument_mem o w) =
            (ops.filter (fun o => o.isMemRef)).map
              (fun o => { type := if w then TraceType.WRITE else TraceType.READ,
                          size := o.memSize, addr := o.effAddr }) := by
        intro w ops hb
        refine List.map_congr_left ?_
        intro o ho
        have hmemn : o.memSize < USHORT_LIMIT := hb o (List.mem_filter.mp ho).1
        simp [instrument_mem, Nat.mod_eq_of_lt hmemn]
      rw [hhalf false ins.srcs hsrc, hhalf true ins.dsts hdst]
      simp
    · have hr : instrReadsMemory ins = false := by
        cases h : instrReadsMemory ins
        · rfl
        · exact absurd (Or.inl h) hmem
      have hw : instrWritesMemory ins = false := by
        cases h : instrWritesMemory ins
        · rfl
        · exact absurd (Or.inr h) hmem
      rw [event_app_instruction, if_neg (by simp [happ]), if_pos (by simp [hr, hw])]
      rw [specPlannedEntries, if_neg (by simp [hr, hw])]
      rfl
  · rw [event_app_instruction, if_pos (by simpa using happ)]
    rw [specPlannedEntries, if_neg (by simp [happ])]
    rfl

theorem planner_entries_match_spec_witness :
    (∀ o ∈ (Instr.mk true [Operand.mk true 4 100, Operand.mk false 0 0, Operand.mk true 8 200]
        [Operand.mk true 2 300] false false).srcs, o.memSize < USHORT_LIMIT) ∧
    (∀ o ∈ (Instr.mk true [Operand.mk true 4 100, Operand.mk false 0 0, Operand.mk true 8 200]
        [Operand.mk true 2 300] false false).dsts, o.memSize < USHORT_LIMIT) ∧
    planWrites (event_app_instruction Arch.x86
        (Instr.mk true [Operand.mk true 4 100, Operand.mk false 0 0, Operand.mk true 8 200]
          [Operand.mk true 2 300] false false) false).1 =
      specPlannedEntries
        (Instr.mk true [Operand.mk true 4 100, Operand.mk false 0 0, Operand.mk true 8 200]
          [Operand.mk true 2 300] false false) :=
  ⟨by decide, by decide,
   planner_entries_match_spec Arch.x86 false
     (Instr.mk true [Operand.mk true 4 100, Operand.mk false 0 0, Operand.mk true 8 200]
       [Operand.mk true 2 300] false false) (by decide) (by decide)⟩

lemma event_app_instruction_bools (arch : Arch) (ins : Instr) (flag : Bool) :
    hasCall (event_app_instruction arch ins flag).1 =
      (!flag && (qualifies ins && cleanCallPermitted arch ins)) ∧
    (event_app_instruction arch ins flag).2 =
      (flag || (qualifies ins && cleanCallPermitted arch ins)) := by
  rw [event_app_instruction]
  cases ha : ins.isApp <;> cases hr : instrReadsMemory ins <;>
    cases hw : instrWritesMemory ins <;> cases flag <;>
      simp [qualifies, ha, hr, hw, hasCall]

lemma planWrites_independent (arch : Arch) (flag : Bool) (ins : Instr) :
    planWrites (event_app_instruction arch ins flag).1 = plannedEntries ins := by
  rw [plannedEntries, event_app_instruction, event_app_instruction]
  cases ha : ins.isApp <;> cases hr : instrReadsMemory ins <;>
    cases hw : instrWritesMemory ins <;> simp [ha, hr, hw, planWrites]

lemma processBB_countP_true (arch : Arch) : ∀ instrs : List Instr,
    (processBB arch instrs true).countP hasCall = 0
  | [] => rfl
  | ins :: rest => by
    have hb := event_app_instruction_bools arch ins true
    rw [processBB, List.countP_cons, hb.2, hb.1]
    simp [processBB_countP_true arch rest]

lemma processBB_countP_le_one (arch : Arch) : ∀ (instrs : List Instr) (flag : Bool),
    (processBB arch instrs flag).countP hasCall ≤ 1
  | [], _ => by simp [processBB]
  | ins :: rest, flag => by
    have hb := event_app_instruction_bools arch ins flag
    rw [processBB, List.countP_cons, hb.2, hb.1]
    cases flag
    · cases hq : (qualifies ins && cleanCallPermitted arch ins)
      · simpa using processBB_countP_le_one arch rest false
      · simp [processBB_countP_true arch rest]
    · simpa using processBB_countP_le_one arch rest true

lemma processBB_hasCall (arch : Arch) : ∀ (instrs : List Instr) (flag : Bool) (k : Nat),
    hasCall ((processBB arch instrs flag).getD k none) = true ↔
      (flag = false ∧
       (qualifies (instrs.getD k default) &&
          cleanCallPermitted arch (instrs.getD k default)) = true ∧
       ∀ j < k, (qualifies (instrs.getD j default) &&
          cleanCallPermitted arch (instrs.getD j default)) = false)
  | [], flag, k => by
    have hd : qualifies (default : Instr) = false := by decide
    simp [processBB, hasCall, hd]
  | ins :: rest, flag, k => by
    have hb := event_app_instruction_bools arch ins flag
    cases k with
    | zero =>
      rw [processBB]
      simp only [List.getD_cons_zero, hb.1]
      cases flag <;> cases hq : (qualifies ins && cleanCallPermitted arch ins) <;>
        simp [hq]
    | succ k =>
      rw [processBB]
      simp only [List.getD_cons_succ]
      rw [processBB_hasCall arch rest (event_app_instruction arch ins flag).2 k, hb.2]
      constructor
      · rintro ⟨hfc, hck, hprev⟩
        have hflag : flag = false ∧ (qualifies ins && cleanCallPermitted arch ins) = false := by
          cases flag <;> cases hq : (qualifies ins && cleanCallPermitted arch ins) <;>
            simp_all
        refine ⟨hflag.1, hck, ?_⟩
        intro j hj
        cases j with
        | zero => simpa using hflag.2
        | succ j =>
          simp only [List.getD_cons_succ]
          exact hprev j (by omega)
      · rintro ⟨hflag, hck, hprev⟩
        have h0 : (qualifies ins && cleanCallPermitted arch ins) = false := by
          simpa using hprev 0 (by omega)
        refine ⟨by simp [hflag, h0], hck, ?_⟩
        intro j hj
        have hstep := hprev (j + 1) (by omega)
        simpa using hstep

/-- Claim C5: within one basic block at most one clean call is inserted; it is
attached exactly at the first instruction that qualifies (an app instruction
referencing memory) and tolerates the call (on ARM: neither predicated nor an
exclusive store) with no earlier such instruction; and every instruction's
planned entry writes are independent of the clean-call flag, so instructions
whose clean call is suppressed still log their own entries. -/
theorem clean_call_once_per_bb (arch : Arch) (instrs : List Instr) :
    (instrumentBB arch instrs).countP hasCall ≤ 1 ∧
    (∀ k : Nat, hasCall ((instrumentBB arch instrs).getD k none) = true ↔
       ((qualifies (instrs.getD k default) &&
           cleanCallPermitted arch (instrs.getD k default)) = true ∧
        ∀ j < k, (qualifies (instrs.getD j default) &&
           cleanCallPermitted arch (instrs.getD j default)) = false)) ∧
    (∀ (flag : Bool) (ins : Instr),
       planWrites (event_app_instruction arch ins flag).1 = plannedEntries ins) := by
  refine ⟨processBB_countP_le_one arch instrs false, ?_, ?_⟩
  · intro k
    rw [instrumentBB, processBB_hasCall arch instrs false k]
    simp
  · intro flag ins
    exact planWrites_independent arch flag ins

theorem clean_call_once_per_bb_witness :
    (instrumentBB Arch.arm
      [Instr.mk true [Operand.mk true 4 1] [] true false,
       Instr.mk true [Operand.mk true 4 1] [] false false]).countP hasCall ≤ 1 :=
  (clean_call_once_per_bb Arch.arm
    [Instr.mk true [Operand.mk true 4 1] [] true false,
     Instr.mk true [Operand.mk true 4 1] [] false false]).1

lemma plannedEntries_no_pid (ins : Instr) :
    ∀ e ∈ plannedEntries ins, e.type ≠ TraceType.PID := by
  intro e he
  rw [plannedEntries, event_app_instruction] at he
  cases ha : ins.isApp
  · simp [ha, planWrites] at he
  · cases hr : instrReadsMemory ins <;> cases hw : instrWritesMemory ins <;>
      simp [ha, hr, hw, planWrites, memLoop_map_snd] at he
    all_goals
      rcases he with ⟨o, _, rfl⟩ | ⟨o, _, rfl⟩ <;> simp [instrument_mem]

lemma countP_pid_zero (l : List TraceEntry)
    (h : ∀ e ∈ l, e.type ≠ TraceType.PID) : l.countP isPidEntry = 0 := by
  rw [List.countP_eq_zero]
  intro e he
  simpa [isPidEntry] using h e he

lemma regInv_memtrace (tid pid : Nat) (d : Bool) (st : PerThread) (ms : List Msg)
    (h : RegInv tid pid st ms) :
    RegInv tid pid (memtrace tid pid d st).1 (ms ++ (memtrace tid pid d st).2) := by
  by_cases hc : d = true ∧ BUF_HDR_SLOTS + st.userEntries.length < MAX_NUM_MEM_REFS / 2
  · rw [memtrace, if_pos hc]
    simpa using h
  · rw [memtrace, if_neg hc]
    obtain ⟨hnp, hunreg, hreg⟩ := h
    have hu : st.userEntries.countP isPidEntry = 0 := countP_pid_zero _ hnp
    cases hr : st.thread_registered
    · have hms : ms = [] := hunreg hr
      subst hms
      refine ⟨by simp, by simp, ?_⟩
      intro _
      constructor
      · simp
      · simp [List.countP_append, List.countP_cons, hu, isPidEntry, threadHeader, pidEntry]
    · obtain ⟨htake, hcount⟩ := hreg hr
      refine ⟨by simp, by simp, ?_⟩
      intro _
      have hlen : 2 ≤ ms.flatten.length := by
        have hl := congrArg List.length htake
        rw [List.length_take] at hl
        simp only [List.length_cons, List.length_nil] at hl
        omega
      constructor
      · rw [List.flatten_append, List.take_append_of_le_length hlen, htake]
      · rw [List.flatten_append, List.countP_append, hcount]
        simp [List.countP_cons, hu, isPidEntry, threadHeader]

lemma regInv_threadStep (tid pid : Nat) (op : ThreadOp) (st : PerThread) (ms : List Msg)
    (h : RegInv tid pid st ms) :
    RegInv tid pid (threadStep tid pid st op).1 (ms ++ (threadStep tid pid st op).2) := by
  cases op with
  | exec ins =>
    obtain ⟨hnp, hunreg, hreg⟩ := h
    refine ⟨?_, by simpa [threadStep] using hunreg, by simpa [threadStep] using hreg⟩
    intro e he
    simp only [threadStep] at he
    rcases List.mem_append.mp he with h1 | h1
    · exact hnp e h1
    · exact plannedEntries_no_pid ins e h1
  | flushCheck => exact regInv_memtrace tid pid true st ms h

lemma regInv_threadRun (tid pid : Nat) :
    ∀ (ops : List ThreadOp) (st : PerThread) (ms : List Msg),
    RegInv tid pid st ms →
    RegInv tid pid (threadRun tid pid st ops).1 (ms ++ (threadRun tid pid st ops).2)
  | [], st, ms, h => by simpa [threadRun] using h
  | op :: rest, st, ms, h => by
    have h1 := regInv_threadStep tid pid op st ms h
    have h2 := regInv_threadRun tid pid rest (threadStep tid pid st op).1
      (ms ++ (threadStep tid pid st op).2) h1
    simpa [threadRun, List.append_assoc] using h2

lemma memtrace_exit_registered (tid pid : Nat) (st : PerThread) :
    (memtrace tid pid false st).1.thread_registered = true := by
  rw [memtrace, if_neg (by simp)]

/-- Claim C1: over any lifetime of a thread — any interleaving of instrumented
instruction executions and clean calls, closed by the mandatory exit flush —
the first two records the thread writes to the pipe are exactly the THREAD
record carrying its thread id followed by the PID record carrying the process
id, that PID record is the only one the thread ever writes (the pair never
recurs), and the thread ends marked registered. -/
theorem first_records_thread_then_pid (tid pid : Nat) (s0 : TraceEntry)
    (ops : List ThreadOp) :
    (threadMessages tid pid s0 ops).flatten.take 2 = [threadHeader tid, pidEntry pid] ∧
    (threadMessages tid pid s0 ops).flatten.countP isPidEntry = 1 ∧
    (memtrace tid pid false (threadRun tid pid (initThread s0) ops).1).1.thread_registered
      = true := by
  have hinit : RegInv tid pid (initThread s0) [] := by
    refine ⟨by simp [initThread], fun _ => rfl, fun hcon => absurd hcon (by simp [initThread])⟩
  have hrun := regInv_threadRun tid pid ops (initThread s0) [] hinit
  rw [List.nil_append] at hrun
  have hall := regInv_memtrace tid pid false (threadRun tid pid (initThread s0) ops).1
    (threadRun tid pid (initThread s0) ops).2 hrun
  have hreg := memtrace_exit_registered tid pid (threadRun tid pid (initThread s0) ops).1
  obtain ⟨hgoal1, hgoal2⟩ := hall.2.2 hreg
  exact ⟨by simpa [threadMessages] using hgoal1,
         by simpa [threadMessages] using hgoal2, hreg⟩

lemma gapsBounded_le (bound : Nat) : ∀ (ops : List ThreadOp) (acc : Nat),
    gapsBounded bound ops acc = true → acc ≤ bound
  | [], acc, h => by simpa [gapsBounded] using h
  | ThreadOp.flushCheck :: _, acc, h => by
    rw [gapsBounded, Bool.and_eq_true] at h
    simpa using h.1
  | ThreadOp.exec ins :: rest, acc, h => by
    rw [gapsBounded] at h
    have hrec := gapsBounded_le bound rest _ h
    omega

lemma cursorOf_exec (tid pid : Nat) (st : PerThread) (ins : Instr) :
    cursorOf (threadStep tid pid st (ThreadOp.exec ins)).1 =
      cursorOf st + (plannedEntries ins).length := by
  simp [threadStep, cursorOf]
  omega

lemma cursorOf_flushCheck (tid pid : Nat) (st : PerThread) :
    cursorOf (memtrace tid pid true st).1 < MAX_NUM_MEM_REFS / 2 := by
  by_cases hc : (true : Bool) = true ∧
      BUF_HDR_SLOTS + st.userEntries.length < MAX_NUM_MEM_REFS / 2
  · rw [memtrace, if_pos hc]
    exact hc.2
  · rw [memtrace, if_neg hc]
    simp [cursorOf, BUF_HDR_SLOTS, MAX_NUM_MEM_REFS]

lemma maxCursor_bound (tid pid : Nat) :
    ∀ (ops : List ThreadOp) (st : PerThread) (acc : Nat),
    gapsBounded (MAX_NUM_MEM_REFS / 2) ops acc = true →
    cursorOf st + 1 ≤ MAX_NUM_MEM_REFS / 2 + acc →
    maxCursor tid pid st ops ≤ MAX_NUM_MEM_REFS
  | [], st, acc, hg, hcur => by
    have hacc := gapsBounded_le _ [] acc hg
    rw [maxCursor]
    have h1 : MAX_NUM_MEM_REFS / 2 = 2048 := rfl
    have h2 : MAX_NUM_MEM_REFS = 4096 := rfl
    omega
  | ThreadOp.exec ins :: rest, st, acc, hg, hcur => by
    rw [gapsBounded] at hg
    have hacc := gapsBounded_le _ rest _ hg
    rw [maxCursor]
    refine max_le ?_ ?_
    · have h1 : MAX_NUM_MEM_REFS / 2 = 2048 := rfl
      have h2 : MAX_NUM_MEM_REFS = 4096 := rfl
      omega
    · refine maxCursor_bound tid pid rest _ (acc + (plannedEntries ins).length) hg ?_
      rw [cursorOf_exec]
      omega
  | ThreadOp.flushCheck :: rest, st, acc, hg, hcur => by
    rw [gapsBounded, Bool.and_eq_true] at hg
    have hacc := of_decide_eq_true hg.1
    rw [maxCursor]
    refine max_le ?_ ?_
    · have h1 : MAX_NUM_MEM_REFS / 2 = 2048 := rfl
      have h2 : MAX_NUM_MEM_REFS = 4096 := rfl
      omega
    · refine maxCursor_bound tid pid rest _ 0 hg.2 ?_
      have hpost := cursorOf_flushCheck tid pid st
      show cursorOf (memtrace tid pid true st).1 + 1 ≤ MAX_NUM_MEM_REFS / 2 + 0
      omega

/-- Claim C10: the append path has no bounds check, but in every execution in
which a thread appends at most MAX_NUM_MEM_REFS / 2 = 2048 trace entries
between consecutive executions of its flush check (and before the first and
after the last), the write cursor never exceeds the end of the fixed-capacity
backing store of MAX_NUM_MEM_REFS entries, so no append writes outside the
buffer. -/
theorem buffer_never_overflows (tid pid : Nat) (s0 : TraceEntry) (ops : List ThreadOp)
    (h : gapsBounded (MAX_NUM_MEM_REFS / 2) ops 0 = true) :
    maxCursor tid pid (initThread s0) ops ≤ MAX_NUM_MEM_REFS := by
  refine maxCursor_bound tid pid ops (initThread s0) 0 h ?_
  show BUF_HDR_SLOTS + ([] : List TraceEntry).length + 1 ≤ MAX_NUM_MEM_REFS / 2 + 0
  decide

theorem buffer_never_overflows_witness :
    gapsBounded (MAX_NUM_MEM_REFS / 2)
      [ThreadOp.exec (Instr.mk true [Operand.mk true 4 100] [Operand.mk true 8 200] false false),
       ThreadOp.flushCheck,
       ThreadOp.exec (Instr.mk true [Operand.mk true 2 300] [] false false)] 0 = true ∧
    maxCursor 5 7 (initThread (threadHeader 0))
      [ThreadOp.exec (Instr.mk true [Operand.mk true 4 100] [Operand.mk true 8 200] false false),
       ThreadOp.flushCheck,
       ThreadOp.exec (Instr.mk true [Operand.mk true 2 300] [] false false)] ≤
      MAX_NUM_MEM_REFS :=
  ⟨by decide,
   buffer_never_overflows 5 7 (threadHeader 0)
     [ThreadOp.exec (Instr.mk true [Operand.mk true 4 100] [Operand.mk true 8 200] false false),
      ThreadOp.flushCheck,
      ThreadOp.exec (Instr.mk true [Operand.mk true 2 300] [] false false)] (by decide)⟩

lemma foldl_exit_mod (pid : Nat) :
    ∀ (l : List (Nat × PerThread)) (g : Nat), g < UINT64_LIMIT →
    l.foldl (fun g t => (event_thread_exit t.1 pid t.2 g).1) g =
      (g + (l.map (finalRefs pid)).sum) % UINT64_LIMIT
  | [], g, hg => by simp [Nat.mod_eq_of_lt hg]
  | t :: rest, g, hg => by
    have hpos : 0 < UINT64_LIMIT := lt_of_le_of_lt (Nat.zero_le g) hg
    rw [List.foldl_cons]
    show List.foldl _ ((g + finalRefs pid t) % UINT64_LIMIT) rest = _
    rw [foldl_exit_mod pid rest _ (Nat.mod_lt _ hpos), Nat.mod_add_mod,
      List.map_cons, List.sum_cons, Nat.add_assoc]

/-- Claim C8: the global uint64 aggregate is mutated only by the thread-exit
path, which adds the exiting thread's final per-thread counter under the
mutex; consequently, starting from zero at process start, after all threads
have exited the global aggregate equals the uint64 sum over all threads of
each thread's own final per-thread reference count. -/
theorem global_aggregate_is_sum (pid : Nat) (threads : List (Nat × PerThread)) :
    totalRefsAfterExits pid threads =
      (threads.map (finalRefs pid)).sum % UINT64_LIMIT ∧
    (∀ (tid g : Nat) (st : PerThread), (event_thread_exit tid pid st g).1 =
      (g + (memtrace tid pid false st).1.num_refs) % UINT64_LIMIT) := by
  constructor
  · rw [totalRefsAfterExits, foldl_exit_mod pid threads 0 (by decide), Nat.zero_add]
  · intro tid g st
    rfl

end DrCacheSim
